import Mathlib

set_option maxHeartbeats 1000000

namespace MyOrders

/-! Shallow embedding of the order view-model of this repository:
    src/types.ts (data model), src/unnamed/part_000 (the App component with
    the projection pipeline, selection tracker and exporters) and
    src/services/firebaseService.ts (store boundary).  JS builtins that the
    code calls (`Date.getTime`, locale collation, locale date formatting)
    are modelled as explicit parameters or as concrete Lean functions noted
    at their definitions. -/

/-- `OrderType` from src/types.ts: `'income' | 'expense'`. -/
inductive OrderType where
  | income
  | expense
deriving DecidableEq

/-- `OrderStatus` from src/types.ts: `'pending' | 'completed'`. -/
inductive OrderStatus where
  | pending
  | completed
deriving DecidableEq

/-- The `Order` record from src/types.ts.  `ref` is optional
    (`ref?: string`), embedded as `Option String`. -/
structure Order where
  id : String
  name : String
  ref : Option String
  date : String
  type : OrderType
  status : OrderStatus
  addedBy : String
deriving DecidableEq

/-- JS `a || d` for `a : string | undefined`: both `undefined` and the
    empty string are falsy, so they yield the default `d`. -/
def jsOr (a : Option String) (d : String) : String :=
  match a with
  | none => d
  | some s => if s = "" then d else s

/-- One Western digit mapped to its Arabic-Indic numeral, all other
    characters unchanged (the replacement body of `toArabicNumerals`,
    src/unnamed/part_000 lines 11-16). -/
def arabicDigit (c : Char) : Char :=
  if c = '0' then '٠' else if c = '1' then '١' else if c = '2' then '٢'
  else if c = '3' then '٣' else if c = '4' then '٤' else if c = '5' then '٥'
  else if c = '6' then '٦' else if c = '7' then '٧' else if c = '8' then '٨'
  else if c = '9' then '٩' else c

/-- `toArabicNumerals` (src/unnamed/part_000 lines 11-16): replace every
    digit `[0-9]` of the string by the Arabic-Indic numeral. -/
def toArabicNumerals (s : String) : String :=
  String.mk (s.data.map arabicDigit)

/-- Model of JS `String.prototype.toLowerCase` (character-wise lowering;
    adequate for the ASCII search terms of this app, Arabic has no case). -/
def strToLower (s : String) : String :=
  String.mk (s.data.map Char.toLower)

/-- Helper for the model of JS `String.prototype.includes`. -/
def listIsPrefixOfD : List Char → List Char → Bool
  | [], _ => true
  | _ :: _, [] => false
  | a :: as, b :: bs => decide (a = b) && listIsPrefixOfD as bs

/-- Helper for the model of JS `String.prototype.includes`: does the first
    list occur as a contiguous run inside the second. -/
def listIsInfixOfD : List Char → List Char → Bool
  | needle, [] => needle.isEmpty
  | needle, hay@(_ :: t) => listIsPrefixOfD needle hay || listIsInfixOfD needle t

/-- Model of JS `s.includes(t)`: `t` occurs as a substring of `s`. -/
def jsIncludes (s t : String) : Bool :=
  listIsInfixOfD t.data s.data

/-- Token of the numeric-aware collation model: a maximal digit run
    (compared by numeric value) or a single other character. -/
inductive NatTok where
  | num (n : Nat)
  | ch (c : Char)
deriving DecidableEq

/-- Tokenizer worker: walks the characters accumulating the value of the
    current digit run (if any). -/
def tokAux : List Char → Option Nat → List NatTok
  | [], none => []
  | [], some n => [NatTok.num n]
  | c :: cs, acc =>
      if c.isDigit then
        tokAux cs (some (acc.getD 0 * 10 + (c.toNat - '0'.toNat)))
      else
        match acc with
        | none => NatTok.ch c :: tokAux cs none
        | some n => NatTok.num n :: NatTok.ch c :: tokAux cs none

/-- Split a string into digit-run / character tokens. -/
def tokenize (s : String) : List NatTok :=
  tokAux s.data none

/-- Compare two tokens: digit runs by numeric value, characters by code
    point, a digit run before a non-digit character. -/
def tokCmp : NatTok → NatTok → Int
  | NatTok.num a, NatTok.num b => if a < b then -1 else if b < a then 1 else 0
  | NatTok.num _, NatTok.ch _ => -1
  | NatTok.ch _, NatTok.num _ => 1
  | NatTok.ch a, NatTok.ch b =>
      if a.toNat < b.toNat then -1 else if b.toNat < a.toNat then 1 else 0

/-- The comparison key of a token: the numeric value of a digit run, or
    the code point of a character (used only to reason about `tokCmp`). -/
def tokSig : NatTok → Nat ⊕ Nat
  | NatTok.num n => Sum.inl n
  | NatTok.ch c => Sum.inr c.toNat

/-- `tokCmp` restated on comparison keys (used only to reason about
    `tokCmp`). -/
def sigCmp : Nat ⊕ Nat → Nat ⊕ Nat → Int
  | Sum.inl a, Sum.inl b => if a < b then -1 else if b < a then 1 else 0
  | Sum.inl _, Sum.inr _ => -1
  | Sum.inr _, Sum.inl _ => 1
  | Sum.inr a, Sum.inr b => if a < b then -1 else if b < a then 1 else 0

/-- Lexicographic comparison of token lists. -/
def lexCmp : List NatTok → List NatTok → Int
  | [], [] => 0
  | [], _ :: _ => -1
  | _ :: _, [] => 1
  | a :: as, b :: bs => if tokCmp a b = 0 then lexCmp as bs else tokCmp a b

/-- Model of JS `x.localeCompare(y, undefined, { numeric: true })`
    (ECMA-402 numeric collation): embedded digit runs compare by numeric
    value, other characters by code point. -/
def natCompare (s t : String) : Int :=
  lexCmp (tokenize s) (tokenize t)

/-- The `'ref-asc'` comparator of `filteredAndSortedOrders`
    (src/unnamed/part_000 line 142):
    `(a.ref || '').localeCompare(b.ref || '', undefined, { numeric: true })`. -/
def cmpRefAsc (a b : Order) : Int :=
  natCompare (jsOr a.ref "") (jsOr b.ref "")

/-- The `'ref-desc'` comparator (line 143): the same call with the two
    arguments swapped. -/
def cmpRefDesc (a b : Order) : Int :=
  natCompare (jsOr b.ref "") (jsOr a.ref "")

/-- The JS builtins the comparator switch depends on, kept abstract:
    `new Date(s).getTime()` and `x.localeCompare(y, 'ar')`. -/
structure JsEnv where
  getTime : String → Int
  localeCompareAr : String → String → Int

/-- The comparator switch of `filteredAndSortedOrders`
    (src/unnamed/part_000 lines 137-146), keyed on the `sortOption`
    string; any unknown option falls through to date-descending. -/
def cmpOf (env : JsEnv) (sortOption : String) (a b : Order) : Int :=
  match sortOption with
  | "date-asc" => env.getTime a.date - env.getTime b.date
  | "name-asc" => env.localeCompareAr a.name b.name
  | "name-desc" => env.localeCompareAr b.name a.name
  | "ref-asc" => cmpRefAsc a b
  | "ref-desc" => cmpRefDesc a b
  | _ => env.getTime b.date - env.getTime a.date

/-- Stable insertion of one element into an already-processed list: keep
    every earlier element `y` with `cmp y x ≤ 0` in front of `x`
    (equal elements keep their original relative order, as the stable
    ES2019 `Array.prototype.sort` does). -/
def insertS (cmp : Order → Order → Int) (x : Order) : List Order → List Order
  | [] => [x]
  | y :: ys => if cmp y x ≤ 0 then y :: insertS cmp x ys else x :: y :: ys

/-- Model of the stable in-place JS `Array.prototype.sort(cmp)`:
    left-to-right stable insertion sort. -/
def sortJS (cmp : Order → Order → Int) (l : List Order) : List Order :=
  l.foldl (fun acc x => insertS cmp x acc) []

/-- The client-local view parameters (src/unnamed/part_000 lines 80-83):
    `searchTerm`, `dateFilter`, `statusFilter` (`''` = no filter, embedded
    as `none`) and the `sortOption` string. -/
structure ViewParams where
  searchTerm : String
  dateFilter : String
  statusFilter : Option OrderStatus
  sortOption : String

/-- The filter predicate of `filteredAndSortedOrders`
    (src/unnamed/part_000 lines 127-135): conjunction of the search, date
    and status predicates.  `order.ref && order.ref.toLowerCase()...` is a
    truthiness test, so an absent and an empty `ref` both skip the `ref`
    disjunct. -/
def matchesFilter (p : ViewParams) (o : Order) : Bool :=
  let lowerSearchTerm := strToLower p.searchTerm
  let matchesSearch :=
    jsIncludes (strToLower o.name) lowerSearchTerm ||
      (match o.ref with
       | none => false
       | some r => !decide (r = "") && jsIncludes (strToLower r) lowerSearchTerm)
  let matchesDate := decide (p.dateFilter = "") || o.date.startsWith p.dateFilter
  let matchesStatus :=
    match p.statusFilter with
    | none => true
    | some st => decide (o.status = st)
  matchesSearch && matchesDate && matchesStatus

/-- The `orders.filter(...)` step of `filteredAndSortedOrders`. -/
def filterOrders (p : ViewParams) (orders : List Order) : List Order :=
  orders.filter (matchesFilter p)

/-- `filteredAndSortedOrders` (src/unnamed/part_000 lines 126-147):
    filter, then sort by the comparator selected by `sortOption`. -/
def filteredAndSortedOrders (env : JsEnv) (p : ViewParams)
    (orders : List Order) : List Order :=
  sortJS (cmpOf env p.sortOption) (filterOrders p orders)

/-- `incomeOrders` (line 149): `filteredAndSortedOrders.filter(o => o.type === 'income')`. -/
def incomeOrders (env : JsEnv) (p : ViewParams) (orders : List Order) : List Order :=
  (filteredAndSortedOrders env p orders).filter (fun o => decide (o.type = OrderType.income))

/-- `expenseOrders` (line 150): `filteredAndSortedOrders.filter(o => o.type === 'expense')`. -/
def expenseOrders (env : JsEnv) (p : ViewParams) (orders : List Order) : List Order :=
  (filteredAndSortedOrders env p orders).filter (fun o => decide (o.type = OrderType.expense))

/-- Claim-side search predicate, following the spec's words (section 4.1):
    case-insensitive substring match of `searchTerm` against `name` OR
    against `ref` only if `ref` is present; empty `searchTerm` matches all. -/
def specSearchOk (p : ViewParams) (o : Order) : Bool :=
  decide (p.searchTerm = "") ||
    jsIncludes (strToLower o.name) (strToLower p.searchTerm) ||
      (match o.ref with
       | none => false
       | some r => jsIncludes (strToLower r) (strToLower p.searchTerm))

/-- Claim-side date predicate: `date` starts with `dateFilter` as an exact
    textual prefix; empty filter matches all. -/
def specDateOk (p : ViewParams) (o : Order) : Bool :=
  decide (p.dateFilter = "") || o.date.startsWith p.dateFilter

/-- Claim-side status predicate: equality with `statusFilter`, empty
    filter matches all. -/
def specStatusOk (p : ViewParams) (o : Order) : Bool :=
  match p.statusFilter with
  | none => true
  | some st => decide (o.status = st)

/-- Claim-side filter predicate: the conjunction of the three predicates
    stated by the spec (section 4.1). -/
def specMatches (p : ViewParams) (o : Order) : Bool :=
  specSearchOk p o && specDateOk p o && specStatusOk p o

/-- `handleSelectOrder` (src/unnamed/part_000 lines 218-228): toggle one
    id in the selection set. -/
def handleSelectOrder (selectedOrders : Finset String) (orderId : String) :
    Finset String :=
  if orderId ∈ selectedOrders then selectedOrders.erase orderId
  else insert orderId selectedOrders

/-- `handleSelectAll` (src/unnamed/part_000 lines 230-243): if every
    visible order is already selected, delete exactly the visible ids,
    otherwise add every visible id. -/
def handleSelectAll (selectedOrders : Finset String)
    (ordersToSelect : List Order) : Finset String :=
  let allVisibleSelected := ordersToSelect.all (fun o => decide (o.id ∈ selectedOrders))
  if allVisibleSelected then
    ordersToSelect.foldl (fun s o => s.erase o.id) selectedOrders
  else
    ordersToSelect.foldl (fun s o => insert o.id s) selectedOrders

/-- The slice of the App state the orders subscription and the selection
    display touch: the live record set and the selection set. -/
structure OrdersView where
  orders : List Order
  selectedOrders : Finset String
deriving DecidableEq

/-- The orders subscription effect (src/unnamed/part_000 lines 111-123):
    a snapshot delivery calls `setOrders(newOrders)` and touches nothing
    else — in particular the selection set is left as it was. -/
def applyOrdersSnapshot (st : OrdersView) (newOrders : List Order) : OrdersView :=
  { st with orders := newOrders }

/-- The selection count shown on the delete button
    (src/unnamed/part_000 line 459): `toArabicNumerals(selectedOrders.size)`. -/
def selectionCountDisplay (st : OrdersView) : String :=
  toArabicNumerals (toString st.selectedOrders.card)

/-- Claim-side count: the number of selected ids still present in the
    current record set (spec section 3, Selection Set). -/
def presentSelectedCount (st : OrdersView) : Nat :=
  (st.selectedOrders.filter (fun id => ∃ o ∈ st.orders, o.id = id)).card

/-- Toast type of the `showToast` helper (src/unnamed/part_000 line 77). -/
inductive ToastType where
  | success
  | error
deriving DecidableEq

/-- One toast notification as emitted by `showToast`. -/
structure ToastMsg where
  message : String
  type : ToastType
deriving DecidableEq

/-- Outcome of the confirm-modal delete handler: the resulting selection
    set, the toasts it emitted, and whether the modal is still open. -/
structure DeleteOutcome where
  selectedOrders : Finset String
  toasts : List ToastMsg
  confirmModalOpen : Bool
deriving DecidableEq

/-- The `onConfirm` continuation of `handleDeleteSelected`
    (src/unnamed/part_000 lines 207-212).  On success the awaited
    `deleteOrders` resolves and the handler clears the selection, shows
    the success toast and closes the modal.  On failure the `await`
    rethrows; there is no try/catch, so none of the following statements
    run: the selection and modal are untouched and no toast of any kind
    is emitted — the rejection escapes unhandled. -/
def onConfirmDeleteSelected (selectedOrders : Finset String)
    (deleteResult : Except String Unit) : DeleteOutcome :=
  match deleteResult with
  | Except.ok _ =>
      { selectedOrders := ∅
        toasts := [⟨"تم حذف الأوردرات المحددة بنجاح.", ToastType.success⟩]
        confirmModalOpen := false }
  | Except.error _ =>
      { selectedOrders := selectedOrders
        toasts := []
        confirmModalOpen := true }

/-- The CSV type label (src/unnamed/part_000 line 261):
    `o.type === 'income' ? 'استلام' : 'صرف'` (also used by the PDF rows). -/
def typeLabel (t : OrderType) : String :=
  match t with
  | OrderType.income => "استلام"
  | OrderType.expense => "صرف"

/-- The status label (lines 265 and 332):
    `o.status === 'pending' ? 'قيد الانتظار' : 'مكتمل'`. -/
def statusLabel (s : OrderStatus) : String :=
  match s with
  | OrderStatus.pending => "قيد الانتظار"
  | OrderStatus.completed => "مكتمل"

/-- Double every double-quote character: the char-level rendering of
    `str.replace(/"/g, '""')` in `escapeCsvField`. -/
def doubleQuotes : List Char → List Char
  | [] => []
  | c :: cs => if c = '"' then '"' :: '"' :: doubleQuotes cs else c :: doubleQuotes cs

/-- `escapeCsvField` (src/unnamed/part_000 lines 249-256): `undefined`
    becomes the empty string; a field containing a comma, a double quote
    or a newline is wrapped in double quotes with embedded quotes
    doubled; any other field is returned unchanged. -/
def escapeCsvField (field : Option String) : String :=
  match field with
  | none => ""
  | some s =>
      if s.data.any (fun c => c = ',' || c = '"' || c = '\n') then
        String.mk ('"' :: doubleQuotes s.data ++ ['"'])
      else s

/-- The CSV header row (src/unnamed/part_000 line 259). -/
def csvHeaders : List String :=
  ["النوع", "الاسم", "الرقم المرجعي", "التاريخ", "الحالة", "أضيف بواسطة"]

/-- One CSV data row (lines 260-267): the six raw fields, each passed
    through `escapeCsvField`.  `fmtDate` models the JS builtin
    `new Date(d).toLocaleDateString('ar-EG')`. -/
def csvRow (fmtDate : String → String) (o : Order) : List String :=
  [typeLabel o.type, o.name, jsOr o.ref "", fmtDate o.date,
   statusLabel o.status, o.addedBy].map (fun f => escapeCsvField (some f))

/-- `handleExportCSV` (src/unnamed/part_000 lines 258-275), the content
    built into the blob: the UTF-8 BOM, the joined header row plus CRLF,
    then each data row appended with CRLF by the forEach loop.  The
    projection argument is `filteredAndSortedOrders`. -/
def handleExportCSV (fmtDate : String → String) (projection : List Order) :
    String :=
  let rows := projection.map (csvRow fmtDate)
  let start := "\uFEFF" ++ (String.intercalate "," csvHeaders ++ "\r\n")
  rows.foldl (fun acc row => acc ++ (String.intercalate "," row ++ "\r\n")) start

/-- Undo quote doubling inside a quoted CSV field body. -/
def unDoubleQuotes : List Char → List Char
  | [] => []
  | [c] => [c]
  | c :: d :: cs =>
      if c = '"' && d = '"' then '"' :: unDoubleQuotes cs
      else c :: unDoubleQuotes (d :: cs)

/-- Claim-side model of standard (RFC4180) CSV field parsing, on the
    character list: a field wrapped in double quotes is unwrapped and its
    doubled quotes undone; any other field is taken verbatim. -/
def parseCsvChars : List Char → List Char
  | c :: rest =>
      if c = '"' && (rest.getLast? == some '"') then unDoubleQuotes rest.dropLast
      else c :: rest
  | [] => []

/-- Claim-side model of standard (RFC4180) CSV field parsing. -/
def parseCsvField (t : String) : String :=
  String.mk (parseCsvChars t.data)

/-- The PDF document content assembled by `handleExportPDF`: title,
    header row and body rows. -/
structure PdfDoc where
  title : String
  head : List (List String)
  body : List (List String)
deriving DecidableEq

/-- Outcome of `handleExportPDF`: the toasts emitted and the document
    saved, if any. -/
structure PdfOutcome where
  toasts : List ToastMsg
  doc : Option PdfDoc
deriving DecidableEq

/-- The PDF header row (src/unnamed/part_000 line 329, RTL order). -/
def pdfHead : List String :=
  ["أضيف بواسطة", "الحالة", "التاريخ", "الرقم المرجعي", "الاسم", "النوع"]

/-- One PDF body row (src/unnamed/part_000 lines 330-337).  `isoDate`
    models `new Date(d).toISOString().split('T')[0]`; an absent or empty
    `ref` renders as the sentinel `'N/A'` via `o.ref || 'N/A'`. -/
def pdfBodyRow (isoDate : String → String) (o : Order) : List String :=
  [o.addedBy, statusLabel o.status, isoDate o.date, jsOr o.ref "N/A",
   o.name, typeLabel o.type]

/-- `handleExportPDF` (src/unnamed/part_000 lines 287-366).  An empty
    projection short-circuits with an error toast and produces no
    document.  Otherwise the "preparing" toast is shown, then the whole
    font fetch / generation runs inside try/catch: `fontResult` models
    the awaited fetch (a rejection or a non-ok response both throw);
    the catch branch shows the single error toast and saves nothing. -/
def handleExportPDF (isoDate : String → String) (projection : List Order)
    (fontResult : Except String String) : PdfOutcome :=
  if projection.length = 0 then
    { toasts := [⟨"لا توجد بيانات لتصديرها.", ToastType.error⟩], doc := none }
  else
    let preparing : ToastMsg := ⟨"جاري تحضير ملف PDF...", ToastType.success⟩
    match fontResult with
    | Except.error _ =>
        { toasts := [preparing, ⟨"حدث خطأ أثناء تحميل الخط أو تصدير PDF.", ToastType.error⟩]
          doc := none }
    | Except.ok _ =>
        { toasts := [preparing, ⟨"تم تصدير PDF بنجاح.", ToastType.success⟩]
          doc := some { title := "تقرير الأوردرات"
                        head := [pdfHead]
                        body := projection.map (pdfBodyRow isoDate) } }

/-- The table's reference cell (src/unnamed/part_000 line 619):
    `toArabicNumerals(order.ref || 'N/A')`. -/
def tableRefCell (o : Order) : String :=
  toArabicNumerals (jsOr o.ref "N/A")

/-- A concrete order used by concrete counterexamples and witnesses. -/
def mkOrder (id ref : String) : Order :=
  { id := id, name := "n" ++ id, ref := some ref, date := "2024-01-01"
    type := OrderType.income, status := OrderStatus.pending, addedBy := "u@x" }

/-- Concrete order with id `"a"` and no reference code. -/
def ordA : Order :=
  { id := "a", name := "na", ref := none, date := "2024-01-01"
    type := OrderType.income, status := OrderStatus.pending, addedBy := "u@x" }

/-- Concrete order with id `"b"` and no reference code. -/
def ordB : Order :=
  { id := "b", name := "nb", ref := none, date := "2024-01-02"
    type := OrderType.expense, status := OrderStatus.pending, addedBy := "u@x" }

/-- A degenerate environment for concrete evaluations of definitions that
    do not consult the date or Arabic-collation builtins. -/
def env0 : JsEnv :=
  { getTime := fun _ => 0, localeCompareAr := fun _ _ => 0 }

/-! ### Helper lemmas -/

theorem mem_foldl_erase (V : List Order) (S : Finset String) (x : String) :
    x ∈ V.foldl (fun s o => s.erase o.id) S ↔ x ∈ S ∧ ∀ o ∈ V, x ≠ o.id := by
  induction V generalizing S with
  | nil => simp
  | cons o t ih =>
      simp only [List.foldl_cons, ih, Finset.mem_erase, List.mem_cons]
      constructor
      · rintro ⟨⟨hne, hS⟩, hall⟩
        exact ⟨hS, fun o' ho' => ho'.elim (fun h => h ▸ hne) (hall o')⟩
      · rintro ⟨hS, hall⟩
        exact ⟨⟨hall o (Or.inl rfl), hS⟩, fun o' ho' => hall o' (Or.inr ho')⟩

theorem mem_foldl_insert (V : List Order) (S : Finset String) (x : String) :
    x ∈ V.foldl (fun s o => insert o.id s) S ↔ x ∈ S ∨ ∃ o ∈ V, x = o.id := by
  induction V generalizing S with
  | nil => simp
  | cons o t ih =>
      simp only [List.foldl_cons, ih, Finset.mem_insert, List.mem_cons]
      constructor
      · rintro (⟨h | hS⟩ | ⟨o', ho', h⟩)
        · exact Or.inr ⟨o, Or.inl rfl, h⟩
        · exact Or.inl hS
        · exact Or.inr ⟨o', Or.inr ho', h⟩
      · rintro (hS | ⟨o', ho' | ho', h⟩)
        · exact Or.inl (Or.inr hS)
        · exact Or.inl (Or.inl (ho' ▸ h))
        · exact Or.inr ⟨o', ho', h⟩

theorem handleSelectAll_all_selected (S : Finset String) (V : List Order)
    (h : ∀ o ∈ V, o.id ∈ S) :
    handleSelectAll S V = V.foldl (fun s o => s.erase o.id) S := by
  unfold handleSelectAll
  have hall : V.all (fun o => decide (o.id ∈ S)) = true :=
    List.all_eq_true.mpr fun o ho => decide_eq_true (h o ho)
  simp [hall]

theorem handleSelectAll_not_all_selected (S : Finset String) (V : List Order)
    (h : ¬ ∀ o ∈ V, o.id ∈ S) :
    handleSelectAll S V = V.foldl (fun s o => insert o.id s) S := by
  unfold handleSelectAll
  have hall : V.all (fun o => decide (o.id ∈ S)) ≠ true := by
    simpa [List.all_eq_true] using h
  simp [hall]

/-! ### Claim C1 -/

/-- C1: the claimed universal round trip of `handleSelectAll` fails on the
    code.  With selection `{"a"}` and a visible partition containing the
    orders with ids `"a"` and `"b"`, the first call adds both ids and the
    second call removes both, ending at the empty selection, not at
    `{"a"}`. -/
theorem C1_selectAll_roundtrip_counterexample :
    handleSelectAll (handleSelectAll {"a"} [ordA, ordB]) [ordA, ordB] ≠
      ({"a"} : Finset String) := by
  decide

/-- C1 (amended): calling `handleSelectAll` twice with the same visible
    partition returns the selection to exactly its prior state provided
    the visible ids were all selected, or none of them was; a partially
    selected visible set instead comes back as the prior selection minus
    the visible ids. -/
theorem C1_selectAll_roundtrip_amended (S : Finset String) (V : List Order)
    (h : (∀ o ∈ V, o.id ∈ S) ∨ (∀ o ∈ V, o.id ∉ S)) :
    handleSelectAll (handleSelectAll S V) V = S := by
  cases V with
  | nil => simp [handleSelectAll]
  | cons o t =>
      rcases h with h | h
      · rw [handleSelectAll_all_selected S (o :: t) h]
        have hnot : ¬ ∀ o' ∈ o :: t,
            o'.id ∈ (o :: t).foldl (fun s o'' => s.erase o''.id) S := by
          intro hall
          have := (mem_foldl_erase (o :: t) S o.id).mp
            (hall o (List.mem_cons_self o t))
          exact this.2 o (List.mem_cons_self o t) rfl
        rw [handleSelectAll_not_all_selected _ _ hnot]
        ext x
        rw [mem_foldl_insert, mem_foldl_erase]
        constructor
        · rintro (⟨hS, _⟩ | ⟨o', ho', rfl⟩)
          · exact hS
          · exact h o' ho'
        · intro hS
          by_cases hx : ∃ o' ∈ o :: t, x = o'.id
          · exact Or.inr hx
          · push_neg at hx
            exact Or.inl ⟨hS, hx⟩
      · have hnot : ¬ ∀ o' ∈ o :: t, o'.id ∈ S := by
          intro hall
          exact h o (List.mem_cons_self o t) (hall o (List.mem_cons_self o t))
        rw [handleSelectAll_not_all_selected S (o :: t) hnot]
        have hall : ∀ o' ∈ o :: t,
            o'.id ∈ (o :: t).foldl (fun s o'' => insert o''.id s) S := by
          intro o' ho'
          exact (mem_foldl_insert (o :: t) S o'.id).mpr (Or.inr ⟨o', ho', rfl⟩)
        rw [handleSelectAll_all_selected _ _ hall]
        ext x
        rw [mem_foldl_erase, mem_foldl_insert]
        constructor
        · rintro ⟨hS | ⟨o', ho', rfl⟩, hne⟩
          · exact hS
          · exact absurd rfl (hne o' ho')
        · intro hS
          refine ⟨Or.inl hS, fun o' ho' hx => ?_⟩
          exact h o' ho' (hx ▸ hS)

/-- C1 (amended) witness at a concrete input: selection `{"a"}` and a
    visible set whose single order id `"a"` is fully selected. -/
theorem C1_amended_witness :
    handleSelectAll (handleSelectAll {"a"} [ordA]) [ordA] = {"a"} :=
  C1_selectAll_roundtrip_amended {"a"} [ordA] (Or.inl (by decide))

/-! ### Claim C9 -/

/-- C9: single-id toggle is an involution on the selection set: toggling
    `x` adds it when absent, removes it when present, leaves every other
    id's membership unchanged, and toggling twice returns the selection
    to exactly its prior state. -/
theorem C9_toggle_involution (S : Finset String) (x : String) :
    (x ∉ S → handleSelectOrder S x = insert x S) ∧
    (x ∈ S → handleSelectOrder S x = S.erase x) ∧
    (∀ y, y ≠ x → (y ∈ handleSelectOrder S x ↔ y ∈ S)) ∧
    handleSelectOrder (handleSelectOrder S x) x = S := by
  by_cases h : x ∈ S
  · refine ⟨fun h' => absurd h h', fun _ => if_pos h, ?_, ?_⟩
    · intro y hy
      simp [handleSelectOrder, if_pos h, Finset.mem_erase, hy]
    · simp only [handleSelectOrder, if_pos h]
      rw [if_neg (Finset.not_mem_erase x S), Finset.insert_erase h]
  · refine ⟨fun _ => if_neg h, fun h' => absurd h' h, ?_, ?_⟩
    · intro y hy
      simp [handleSelectOrder, if_neg h, Finset.mem_insert, hy]
    · simp only [handleSelectOrder, if_neg h]
      rw [if_pos (Finset.mem_insert_self x S), Finset.erase_insert h]

/-- C9 witness at a concrete input: toggling `"a"` into the empty
    selection adds it. -/
theorem C9_witness :
    handleSelectOrder (∅ : Finset String) "a" = insert "a" (∅ : Finset String) :=
  (C9_toggle_involution ∅ "a").1 (by decide)

/-! ### Claim C2 -/

/-- C2: the claimed reconciliation on snapshot replacement fails on the
    code.  With order `"a"` selected, delivering an empty snapshot leaves
    `"a"` in the selection set, and the delete-button count display still
    shows the Arabic numeral for 1 although zero selected ids are present
    in the record set. -/
theorem C2_reconcile_counterexample :
    (applyOrdersSnapshot ⟨[ordA], {"a"}⟩ []).selectedOrders = {"a"} ∧
    presentSelectedCount (applyOrdersSnapshot ⟨[ordA], {"a"}⟩ []) = 0 ∧
    selectionCountDisplay (applyOrdersSnapshot ⟨[ordA], {"a"}⟩ []) = "١" ∧
    selectionCountDisplay (applyOrdersSnapshot ⟨[ordA], {"a"}⟩ []) ≠
      toArabicNumerals
        (toString (presentSelectedCount (applyOrdersSnapshot ⟨[ordA], {"a"}⟩ []))) := by
  refine ⟨rfl, ?_, rfl, ?_⟩ <;> decide

/-- C2 (amended): a snapshot delivery replaces the record set and leaves
    the selection set untouched; the displayed count is the size of the
    whole selection set, stale ids included, and agrees with the number
    of selected ids still present only when every selected id is present
    in the current record set. -/
theorem C2_stale_selection_amended (st : OrdersView) (newOrders : List Order) :
    (applyOrdersSnapshot st newOrders).selectedOrders = st.selectedOrders ∧
    (applyOrdersSnapshot st newOrders).orders = newOrders ∧
    selectionCountDisplay st = toArabicNumerals (toString st.selectedOrders.card) ∧
    ((∀ i ∈ st.selectedOrders, ∃ o ∈ st.orders, o.id = i) →
      presentSelectedCount st = st.selectedOrders.card) := by
  refine ⟨rfl, rfl, rfl, fun h => ?_⟩
  unfold presentSelectedCount
  rw [Finset.filter_true_of_mem h]

/-- C2 (amended) witness at a concrete input where the selected id is
    still present in the record set. -/
theorem C2_amended_witness :
    presentSelectedCount ⟨[ordA], {"a"}⟩ = ({"a"} : Finset String).card :=
  (C2_stale_selection_amended ⟨[ordA], {"a"}⟩ []).2.2.2 (by decide)

/-! ### Claim C3 -/

/-- C3: the claim fails on the code in its "a failure is surfaced" part.
    When the awaited batch delete rejects, the handler (which has no
    try/catch) emits no toast at all — in particular no error toast —
    while the selection is indeed left intact. -/
theorem C3_delete_failure_counterexample :
    (onConfirmDeleteSelected {"a"} (Except.error "commit failed")).toasts = [] ∧
    (¬ ∃ t ∈ (onConfirmDeleteSelected {"a"} (Except.error "commit failed")).toasts,
        t.type = ToastType.error) ∧
    (onConfirmDeleteSelected {"a"} (Except.error "commit failed")).selectedOrders
      = {"a"} := by
  refine ⟨rfl, ?_, rfl⟩
  rintro ⟨t, ht, -⟩
  simp [onConfirmDeleteSelected] at ht

/-- C3 (amended): if the batch delete fails, the selection set is left
    exactly as it was and no success notification is emitted; however no
    failure message is surfaced either — the handler emits no toast at
    all and the rejection escapes unhandled (the confirm modal also stays
    open). -/
theorem C3_delete_failure_amended (S : Finset String) (e : String) :
    onConfirmDeleteSelected S (Except.error e) =
      { selectedOrders := S, toasts := [], confirmModalOpen := true } :=
  rfl

/-! ### Claim C10 -/

/-- C10: an order whose `ref` is the empty string behaves exactly like an
    order whose `ref` is absent at every interface that reads it: the PDF
    body row (sentinel `"N/A"`), the table cell (sentinel `"N/A"`), the
    CSV row (empty string), the two ref comparators, and the filter
    predicate. -/
theorem C10_empty_ref_equals_absent (o b : Order)
    (isoDate fmtDate : String → String) (p : ViewParams) :
    pdfBodyRow isoDate { o with ref := some "" } =
      pdfBodyRow isoDate { o with ref := none } ∧
    (pdfBodyRow isoDate { o with ref := some "" })[3]? = some "N/A" ∧
    tableRefCell { o with ref := some "" } = "N/A" ∧
    tableRefCell { o with ref := none } = "N/A" ∧
    csvRow fmtDate { o with ref := some "" } =
      csvRow fmtDate { o with ref := none } ∧
    (csvRow fmtDate { o with ref := some "" })[2]? = some "" ∧
    cmpRefAsc { o with ref := some "" } b = cmpRefAsc { o with ref := none } b ∧
    cmpRefAsc b { o with ref := some "" } = cmpRefAsc b { o with ref := none } ∧
    cmpRefDesc { o with ref := some "" } b = cmpRefDesc { o with ref := none } b ∧
    cmpRefDesc b { o with ref := some "" } = cmpRefDesc b { o with ref := none } ∧
    matchesFilter p { o with ref := some "" } =
      matchesFilter p { o with ref := none } := by
  have hjs : ∀ d : String, jsOr (some "") d = jsOr none d := by
    intro d; simp [jsOr]
  refine ⟨?_, ?_, ?_, ?_, ?_, ?_, ?_, ?_, ?_, ?_, ?_⟩
  · simp [pdfBodyRow, hjs]
  · simp [pdfBodyRow, jsOr]
  · simp [tableRefCell, jsOr]; decide
  · simp [tableRefCell, jsOr]; decide
  · simp [csvRow, hjs]
  · simp [csvRow, jsOr, escapeCsvField]
  · simp [cmpRefAsc, hjs]
  · simp [cmpRefAsc, hjs]
  · simp [cmpRefDesc, hjs]
  · simp [cmpRefDesc, hjs]
  · simp [matchesFilter]

/-! ### Sorting helper lemmas -/

theorem insertS_perm (cmp : Order → Order → Int) (x : Order) (l : List Order) :
    List.Perm (insertS cmp x l) (x :: l) := by
  induction l with
  | nil => exact List.Perm.refl [x]
  | cons y ys ih =>
      unfold insertS
      by_cases h : cmp y x ≤ 0
      · rw [if_pos h]
        exact (ih.cons y).trans (List.Perm.swap x y ys)
      · rw [if_neg h]

theorem sortJS_foldl_perm (cmp : Order → Order → Int) (l : List Order) :
    ∀ acc : List Order,
      List.Perm (l.foldl (fun acc x => insertS cmp x acc) acc) (acc ++ l) := by
  induction l with
  | nil => intro acc; simp
  | cons x t ih =>
      intro acc
      have h1 := ih (insertS cmp x acc)
      have h2 : List.Perm (insertS cmp x acc ++ t) ((x :: acc) ++ t) :=
        (insertS_perm cmp x acc).append_right t
      exact (h1.trans h2).trans List.perm_middle.symm

theorem sortJS_perm (cmp : Order → Order → Int) (l : List Order) :
    List.Perm (sortJS cmp l) l := by
  simpa using sortJS_foldl_perm cmp l []

/-! ### Claim C4 -/

/-- C4: the projection places every element of the filtered record set
    into exactly one of the income / expense sequences according to its
    type, each sequence preserves the sorted order (it is a sublist of
    the sorted combined list), and the two sequences merge back to the
    sorted filtered list with no drops and no duplicates (their
    concatenation is a permutation of it, and per-element counts add
    up). -/
theorem C4_projection_partition (env : JsEnv) (p : ViewParams)
    (orders : List Order) :
    List.Perm (filteredAndSortedOrders env p orders) (filterOrders p orders) ∧
    List.Sublist (incomeOrders env p orders) (filteredAndSortedOrders env p orders) ∧
    List.Sublist (expenseOrders env p orders) (filteredAndSortedOrders env p orders) ∧
    List.Perm (incomeOrders env p orders ++ expenseOrders env p orders)
      (filteredAndSortedOrders env p orders) ∧
    (∀ o ∈ filteredAndSortedOrders env p orders,
      (o ∈ incomeOrders env p orders ↔ o.type = OrderType.income) ∧
      (o ∈ expenseOrders env p orders ↔ o.type = OrderType.expense) ∧
      ¬ (o ∈ incomeOrders env p orders ∧ o ∈ expenseOrders env p orders)) ∧
    (∀ o : Order,
      (incomeOrders env p orders).count o + (expenseOrders env p orders).count o =
        (filteredAndSortedOrders env p orders).count o) := by
  have hperm : List.Perm (filteredAndSortedOrders env p orders)
      (filterOrders p orders) := sortJS_perm _ _
  have hneg : (fun o : Order => decide (o.type = OrderType.expense)) =
      fun o : Order => ! decide (o.type = OrderType.income) := by
    funext o; cases o.type <;> rfl
  have happ : List.Perm (incomeOrders env p orders ++ expenseOrders env p orders)
      (filteredAndSortedOrders env p orders) := by
    rw [incomeOrders, expenseOrders, hneg]
    exact List.filter_append_perm _ _
  refine ⟨hperm, List.filter_sublist _, List.filter_sublist _, happ, ?_, ?_⟩
  · intro o ho
    constructor
    · simp [incomeOrders, List.mem_filter, ho]
    constructor
    · simp [expenseOrders, List.mem_filter, ho]
    · rintro ⟨hi, he⟩
      rw [incomeOrders, List.mem_filter] at hi
      rw [expenseOrders, List.mem_filter] at he
      have h1 := of_decide_eq_true hi.2
      have h2 := of_decide_eq_true he.2
      rw [h1] at h2
      exact OrderType.noConfusion h2
  · intro o
    have := happ.count_eq o
    rwa [List.count_append] at this

/-- C4 witness at a concrete input: the single income order of a
    one-order record set lands in the income sequence. -/
theorem C4_witness :
    ordA ∈ incomeOrders env0 ⟨"", "", none, "date-desc"⟩ [ordA] ↔
      ordA.type = OrderType.income :=
  ((C4_projection_partition env0 ⟨"", "", none, "date-desc"⟩ [ordA]).2.2.2.2.1
    ordA (by decide)).1

/-! ### Filter helper lemmas -/

theorem listIsInfixOfD_nil_left (l : List Char) : listIsInfixOfD [] l = true := by
  cases l <;> rfl

theorem jsIncludes_empty_needle (s : String) : jsIncludes s "" = true := by
  unfold jsIncludes
  exact listIsInfixOfD_nil_left s.data

theorem jsIncludes_empty_hay (t : String) : jsIncludes "" t = t.data.isEmpty :=
  rfl

theorem strToLower_empty : strToLower "" = "" := rfl

theorem strToLower_eq_empty_iff (s : String) : strToLower s = "" ↔ s = "" := by
  cases s with
  | mk l =>
      cases l with
      | nil => simp [strToLower]
      | cons c cs =>
          constructor
          · intro h
            have := congrArg String.data h
            simp [strToLower] at this
          · intro h
            have := congrArg String.data h
            simp at this

theorem data_isEmpty_false_of_ne {s : String} (h : s ≠ "") :
    s.data.isEmpty = false := by
  cases s with
  | mk l =>
      cases l with
      | nil => exact absurd rfl h
      | cons c cs => rfl

theorem matchesFilter_eq_specMatches (p : ViewParams) (o : Order) :
    matchesFilter p o = specMatches p o := by
  simp only [matchesFilter, specMatches, specSearchOk, specDateOk, specStatusOk]
  by_cases hs : p.searchTerm = ""
  · rw [hs, strToLower_empty]
    simp [jsIncludes_empty_needle]
  · have hlow : strToLower p.searchTerm ≠ "" :=
      fun h => hs ((strToLower_eq_empty_iff p.searchTerm).mp h)
    have hdec : decide (p.searchTerm = "") = false := decide_eq_false hs
    rw [hdec]
    cases href : o.ref with
    | none => simp
    | some r =>
        by_cases hr : r = ""
        · subst hr
          have hinc : jsIncludes "" (strToLower p.searchTerm) = false := by
            rw [jsIncludes_empty_hay]
            exact data_isEmpty_false_of_ne hlow
          simp [strToLower_empty, hinc]
        · simp [hr]

/-! ### Claim C5 -/

/-- C5: the filter step returns exactly the orders satisfying the
    conjunction of the three predicates stated by the spec
    (case-insensitive substring search against name or a present ref,
    textual date-prefix match, status equality; empty parameters match
    all) and, being a filter, preserves the relative order of the
    matching orders. -/
theorem C5_filter_exact (p : ViewParams) (orders : List Order) :
    filterOrders p orders = orders.filter (specMatches p) ∧
    List.Sublist (filterOrders p orders) orders := by
  constructor
  · unfold filterOrders
    exact List.filter_congr (fun o _ => matchesFilter_eq_specMatches p o)
  · exact List.filter_sublist orders

/-! ### Comparator helper lemmas -/

theorem tokCmp_eq_sigCmp (a b : NatTok) :
    tokCmp a b = sigCmp (tokSig a) (tokSig b) := by
  cases a <;> cases b <;> rfl

theorem sigCmp_self (x : Nat ⊕ Nat) : sigCmp x x = 0 := by
  cases x <;> simp [sigCmp]

theorem sigCmp_total (x y : Nat ⊕ Nat) : sigCmp x y ≤ 0 ∨ sigCmp y x ≤ 0 := by
  cases x <;> cases y <;> simp only [sigCmp] <;> (try split_ifs) <;> omega

theorem sigCmp_zero (x y : Nat ⊕ Nat) : sigCmp x y = 0 ↔ x = y := by
  cases x with
  | inl a =>
      cases y with
      | inl b =>
          simp only [sigCmp, Sum.inl.injEq]
          split_ifs <;> constructor <;> intro h <;> first
            | exact h.elim
            | omega
      | inr b => simp [sigCmp]
  | inr a =>
      cases y with
      | inl b => simp [sigCmp]
      | inr b =>
          simp only [sigCmp, Sum.inr.injEq]
          split_ifs <;> constructor <;> intro h <;> first
            | exact h.elim
            | omega

theorem sigCmp_trans {x y z : Nat ⊕ Nat}
    (h1 : sigCmp x y ≤ 0) (h2 : sigCmp y z ≤ 0) : sigCmp x z ≤ 0 := by
  cases x <;> cases y <;> cases z <;> simp only [sigCmp] at h1 h2 ⊢ <;>
    (try split_ifs at h1 h2 ⊢) <;> omega

theorem sigCmp_strict_trans {x y z : Nat ⊕ Nat}
    (h1 : sigCmp x y ≤ 0) (h1' : sigCmp x y ≠ 0)
    (h2 : sigCmp y z ≤ 0) (h2' : sigCmp y z ≠ 0) :
    sigCmp x z ≤ 0 ∧ sigCmp x z ≠ 0 := by
  cases x <;> cases y <;> cases z <;> simp only [sigCmp] at h1 h1' h2 h2' ⊢ <;>
    (try split_ifs at h1 h1' h2 h2' ⊢) <;> omega

theorem lexCmp_le_total (a : List NatTok) : ∀ b, lexCmp a b ≤ 0 ∨ lexCmp b a ≤ 0 := by
  induction a with
  | nil => intro b; cases b <;> simp [lexCmp]
  | cons x xs ih =>
      intro b
      cases b with
      | nil => simp [lexCmp]
      | cons y ys =>
          simp only [lexCmp]
          by_cases h : tokCmp x y = 0
          · have hs : tokSig x = tokSig y :=
              (sigCmp_zero _ _).mp (by rw [tokCmp_eq_sigCmp] at h; exact h)
            have h' : tokCmp y x = 0 := by
              rw [tokCmp_eq_sigCmp, ← hs, sigCmp_self]
            rw [if_pos h, if_pos h']
            exact ih ys
          · have h' : tokCmp y x ≠ 0 := by
              intro hyx
              apply h
              have hs : tokSig y = tokSig x :=
                (sigCmp_zero _ _).mp (by rw [tokCmp_eq_sigCmp] at hyx; exact hyx)
              rw [tokCmp_eq_sigCmp, hs, sigCmp_self]
            rw [if_neg h, if_neg h', tokCmp_eq_sigCmp, tokCmp_eq_sigCmp]
            exact sigCmp_total _ _

theorem lexCmp_le_trans (a : List NatTok) :
    ∀ b c, lexCmp a b ≤ 0 → lexCmp b c ≤ 0 → lexCmp a c ≤ 0 := by
  induction a with
  | nil => intro b c _ _; cases c <;> simp [lexCmp]
  | cons x xs ih =>
      intro b c h1 h2
      cases b with
      | nil => simp [lexCmp] at h1
      | cons y ys =>
          cases c with
          | nil => simp [lexCmp] at h2
          | cons z zs =>
              simp only [lexCmp] at h1 h2 ⊢
              by_cases hxy : tokCmp x y = 0 <;> by_cases hyz : tokCmp y z = 0
              · have hsxy : tokSig x = tokSig y :=
                  (sigCmp_zero _ _).mp (by rw [tokCmp_eq_sigCmp] at hxy; exact hxy)
                have hsyz : tokSig y = tokSig z :=
                  (sigCmp_zero _ _).mp (by rw [tokCmp_eq_sigCmp] at hyz; exact hyz)
                have hxz : tokCmp x z = 0 := by
                  rw [tokCmp_eq_sigCmp, hsxy, hsyz, sigCmp_self]
                rw [if_pos hxy] at h1
                rw [if_pos hyz] at h2
                rw [if_pos hxz]
                exact ih ys zs h1 h2
              · have hsxy : tokSig x = tokSig y :=
                  (sigCmp_zero _ _).mp (by rw [tokCmp_eq_sigCmp] at hxy; exact hxy)
                have hxz : tokCmp x z = tokCmp y z := by
                  rw [tokCmp_eq_sigCmp, tokCmp_eq_sigCmp, hsxy]
                have hxz' : tokCmp x z ≠ 0 := by rw [hxz]; exact hyz
                rw [if_neg hyz] at h2
                rw [if_neg hxz', hxz]
                exact h2
              · have hsyz : tokSig y = tokSig z :=
                  (sigCmp_zero _ _).mp (by rw [tokCmp_eq_sigCmp] at hyz; exact hyz)
                have hxz : tokCmp x z = tokCmp x y := by
                  rw [tokCmp_eq_sigCmp, tokCmp_eq_sigCmp, ← hsyz]
                have hxz' : tokCmp x z ≠ 0 := by rw [hxz]; exact hxy
                rw [if_neg hxy] at h1
                rw [if_neg hxz', hxz]
                exact h1
              · rw [if_neg hxy] at h1
                rw [if_neg hyz] at h2
                have hst := sigCmp_strict_trans
                  (x := tokSig x) (y := tokSig y) (z := tokSig z)
                  (by rw [← tokCmp_eq_sigCmp]; exact h1)
                  (by rw [← tokCmp_eq_sigCmp]; exact hxy)
                  (by rw [← tokCmp_eq_sigCmp]; exact h2)
                  (by rw [← tokCmp_eq_sigCmp]; exact hyz)
                rw [if_neg (by rw [tokCmp_eq_sigCmp]; exact hst.2)]
                rw [tokCmp_eq_sigCmp]
                exact hst.1

theorem cmpRefAsc_total (a b : Order) : cmpRefAsc a b ≤ 0 ∨ cmpRefAsc b a ≤ 0 :=
  lexCmp_le_total _ _

theorem cmpRefAsc_trans (a b c : Order) :
    cmpRefAsc a b ≤ 0 → cmpRefAsc b c ≤ 0 → cmpRefAsc a c ≤ 0 :=
  lexCmp_le_trans _ _ _

theorem natCompare_empty_le (t : String) : natCompare "" t ≤ 0 := by
  have h0 : tokenize "" = [] := rfl
  unfold natCompare
  rw [h0]
  cases tokenize t <;> simp [lexCmp]

theorem insertS_sorted (cmp : Order → Order → Int)
    (htot : ∀ a b, cmp a b ≤ 0 ∨ cmp b a ≤ 0)
    (htrans : ∀ a b c, cmp a b ≤ 0 → cmp b c ≤ 0 → cmp a c ≤ 0)
    (x : Order) (l : List Order)
    (hl : l.Pairwise (fun a b => cmp a b ≤ 0)) :
    (insertS cmp x l).Pairwise (fun a b => cmp a b ≤ 0) := by
  induction l with
  | nil => simp [insertS]
  | cons y ys ih =>
      rw [List.pairwise_cons] at hl
      unfold insertS
      by_cases h : cmp y x ≤ 0
      · rw [if_pos h, List.pairwise_cons]
        refine ⟨?_, ih hl.2⟩
        intro b hb
        rcases List.mem_cons.mp ((insertS_perm cmp x ys).mem_iff.mp hb) with rfl | hbys
        · exact h
        · exact hl.1 b hbys
      · rw [if_neg h]
        have hx : cmp x y ≤ 0 := (htot x y).resolve_right h
        rw [List.pairwise_cons]
        refine ⟨?_, List.pairwise_cons.mpr hl⟩
        intro b hb
        rcases List.mem_cons.mp hb with rfl | hbys
        · exact hx
        · exact htrans x y b hx (hl.1 b hbys)

theorem sortJS_foldl_sorted (cmp : Order → Order → Int)
    (htot : ∀ a b, cmp a b ≤ 0 ∨ cmp b a ≤ 0)
    (htrans : ∀ a b c, cmp a b ≤ 0 → cmp b c ≤ 0 → cmp a c ≤ 0)
    (l : List Order) :
    ∀ acc, acc.Pairwise (fun a b => cmp a b ≤ 0) →
      (l.foldl (fun acc x => insertS cmp x acc) acc).Pairwise
        (fun a b => cmp a b ≤ 0) := by
  induction l with
  | nil => intro acc h; exact h
  | cons x t ih =>
      intro acc h
      exact ih _ (insertS_sorted cmp htot htrans x acc h)

theorem sortJS_sorted (cmp : Order → Order → Int)
    (htot : ∀ a b, cmp a b ≤ 0 ∨ cmp b a ≤ 0)
    (htrans : ∀ a b c, cmp a b ≤ 0 → cmp b c ≤ 0 → cmp a c ≤ 0)
    (l : List Order) :
    (sortJS cmp l).Pairwise (fun a b => cmp a b ≤ 0) :=
  sortJS_foldl_sorted cmp htot htrans l [] List.Pairwise.nil

/-! ### Claim C6 -/

/-- C6: under `ref-asc` the comparator switch selects the numeric-aware
    ascending ref comparison (so the output of the stable sort is pairwise
    ascending under it, and `"2"` compares before `"10"`), an order with
    missing `ref` compares as if its `ref` were the empty string and never
    sorts after anything, `ref-desc` is the reverse (the same comparison
    with its arguments swapped), and sorting records with refs
    `["10", "2", "1"]` by `ref-asc` yields `["1", "2", "10"]`. -/
theorem C6_refAsc_numeric_sort :
    (∀ (env : JsEnv) (a b : Order), cmpOf env "ref-asc" a b = cmpRefAsc a b) ∧
    (∀ (env : JsEnv) (a b : Order), cmpOf env "ref-desc" a b = cmpRefDesc a b) ∧
    (∀ a b : Order, cmpRefDesc a b = cmpRefAsc b a) ∧
    natCompare "2" "10" < 0 ∧
    (∀ a b : Order, a.ref = none →
      cmpRefAsc a b = cmpRefAsc { a with ref := some "" } b ∧ cmpRefAsc a b ≤ 0) ∧
    (∀ l : List Order,
      (sortJS cmpRefAsc l).Pairwise (fun a b => cmpRefAsc a b ≤ 0)) ∧
    (sortJS cmpRefAsc [mkOrder "A" "10", mkOrder "B" "2", mkOrder "C" "1"]).map
        (fun o => o.ref) = [some "1", some "2", some "10"] := by
  refine ⟨fun env a b => rfl, fun env a b => rfl, fun a b => rfl, by decide,
    ?_, ?_, by decide⟩
  · intro a b h
    constructor
    · simp [cmpRefAsc, h, jsOr]
    · have heq : cmpRefAsc a b = natCompare "" (jsOr b.ref "") := by
        simp [cmpRefAsc, h, jsOr]
      rw [heq]
      exact natCompare_empty_le _
  · intro l
    exact sortJS_sorted cmpRefAsc cmpRefAsc_total cmpRefAsc_trans l

/-- C6 witness at a concrete input: `ordA` has no `ref`, compares as the
    empty string and does not sort after `ordB`. -/
theorem C6_witness :
    cmpRefAsc ordA ordB = cmpRefAsc { ordA with ref := some "" } ordB ∧
    cmpRefAsc ordA ordB ≤ 0 :=
  C6_refAsc_numeric_sort.2.2.2.2.1 ordA ordB rfl

/-! ### String append / join helper lemmas -/

theorem str_append_empty (s : String) : s ++ "" = s := by
  cases s with
  | mk l => exact congrArg String.mk (List.append_nil l)

theorem str_empty_append (s : String) : "" ++ s = s := by
  cases s with
  | mk l => rfl

theorem str_append_assoc (a b c : String) : a ++ b ++ c = a ++ (b ++ c) := by
  cases a with
  | mk la =>
      cases b with
      | mk lb =>
          cases c with
          | mk lc => exact congrArg String.mk (List.append_assoc la lb lc)

theorem strFoldlAppend (l : List String) :
    ∀ acc : String, l.foldl (fun a x => a ++ x) acc = acc ++ String.join l := by
  induction l with
  | nil => intro acc; exact (str_append_empty acc).symm
  | cons x t ih =>
      intro acc
      show t.foldl (fun a x => a ++ x) (acc ++ x) = acc ++ String.join (x :: t)
      have hj : String.join (x :: t) = ("" ++ x) ++ String.join t := ih ("" ++ x)
      rw [ih (acc ++ x), hj, str_empty_append, str_append_assoc]

theorem str_join_cons (x : String) (t : List String) :
    String.join (x :: t) = x ++ String.join t := by
  have h : String.join (x :: t) = ("" ++ x) ++ String.join t := strFoldlAppend t ("" ++ x)
  rw [h, str_empty_append]

theorem foldl_append_join {α : Type} (g : α → String) (l : List α) :
    ∀ acc : String,
      l.foldl (fun a x => a ++ g x) acc = acc ++ String.join (l.map g) := by
  induction l with
  | nil => intro acc; exact (str_append_empty acc).symm
  | cons x t ih =>
      intro acc
      show t.foldl (fun a x => a ++ g x) (acc ++ g x) =
        acc ++ String.join (g x :: t.map g)
      rw [ih (acc ++ g x), str_join_cons, str_append_assoc]

/-! ### CSV helper lemmas -/

theorem unDouble_cons_of_ne {c : Char} (h : ¬ c = '"') (rest : List Char) :
    unDoubleQuotes (c :: rest) = c :: unDoubleQuotes rest := by
  cases rest with
  | nil => rfl
  | cons d cs => simp [unDoubleQuotes, h]

theorem unDouble_double (l : List Char) :
    unDoubleQuotes (doubleQuotes l) = l := by
  induction l with
  | nil => rfl
  | cons c cs ih =>
      by_cases h : c = '"'
      · subst h
        simp [doubleQuotes, unDoubleQuotes, ih]
      · simp [doubleQuotes, h, unDouble_cons_of_ne h, ih]

theorem parse_escape (s : String) :
    parseCsvField (escapeCsvField (some s)) = s := by
  cases s with
  | mk l =>
      by_cases h : l.any (fun c => c = ',' || c = '"' || c = '\n') = true
      · have hesc : escapeCsvField (some (String.mk l)) =
            String.mk ('"' :: doubleQuotes l ++ ['"']) := by
          simp only [escapeCsvField]
          rw [if_pos h]
        rw [hesc]
        unfold parseCsvField
        show String.mk (parseCsvChars ('"' :: (doubleQuotes l ++ ['"']))) =
          String.mk l
        simp only [parseCsvChars, List.getLast?_concat, List.dropLast_concat]
        simp [unDouble_double]
      · have hesc : escapeCsvField (some (String.mk l)) = String.mk l := by
          simp only [escapeCsvField]
          rw [if_neg h]
        rw [hesc]
        unfold parseCsvField
        show String.mk (parseCsvChars l) = String.mk l
        cases l with
        | nil => rfl
        | cons c rest =>
            have hc : ¬ c = '"' := by
              intro hc
              apply h
              subst hc
              simp
            simp [parseCsvChars, hc]

/-! ### Claim C7 -/

/-- C7: the CSV export is the UTF-8 byte-order mark, then the header row,
    then one row per record of the combined projection in exactly that
    order (not re-partitioned by type), every row CRLF-terminated; a field
    containing a comma, a double quote or a newline is wrapped in double
    quotes with embedded quotes doubled and round-trips through standard
    CSV field parsing; an absent `ref` is emitted as the empty string. -/
theorem C7_csv_export (fmtDate : String → String) (projection : List Order) :
    handleExportCSV fmtDate projection =
      "\uFEFF" ++ String.join ((String.intercalate "," csvHeaders ++ "\r\n") ::
        projection.map (fun o => String.intercalate "," (csvRow fmtDate o) ++ "\r\n")) ∧
    (handleExportCSV fmtDate projection).data.head? = some '\uFEFF' ∧
    (∀ s : String, parseCsvField (escapeCsvField (some s)) = s) ∧
    (∀ s : String, s.data.any (fun c => c = ',' || c = '"' || c = '\n') = true →
      escapeCsvField (some s) = String.mk ('"' :: doubleQuotes s.data ++ ['"'])) ∧
    (∀ o : Order, o.ref = none → (csvRow fmtDate o)[2]? = some "") := by
  have hmain : handleExportCSV fmtDate projection =
      "\uFEFF" ++ String.join ((String.intercalate "," csvHeaders ++ "\r\n") ::
        projection.map (fun o => String.intercalate "," (csvRow fmtDate o) ++ "\r\n")) := by
    simp only [handleExportCSV]
    rw [foldl_append_join (fun row => String.intercalate "," row ++ "\r\n")
      (projection.map (csvRow fmtDate))]
    rw [List.map_map, str_join_cons, ← str_append_assoc]
    rfl
  refine ⟨hmain, ?_, parse_escape, ?_, ?_⟩
  · rw [hmain, String.data_append]
    rfl
  · intro s h
    simp only [escapeCsvField]
    rw [if_pos h]
  · intro o h
    simp [csvRow, h, jsOr, escapeCsvField]

/-- C7 witness at a concrete input: the reference field of an order with
    absent `ref` is the empty string. -/
theorem C7_witness : (csvRow (fun d => d) ordA)[2]? = some "" :=
  (C7_csv_export (fun d => d) []).2.2.2.2 ordA rfl

/-! ### Claim C8 -/

/-- C8: an empty projection makes the PDF export short-circuit with a
    single user-visible error message and no document; a font-fetch
    failure on a non-empty projection is caught and surfaced as exactly
    one user-visible error message (after the informational "preparing"
    toast) and no document is produced. -/
theorem C8_pdf_export (isoDate : String → String) (projection : List Order)
    (fontResult : Except String String) :
    handleExportPDF isoDate [] fontResult =
      { toasts := [⟨"لا توجد بيانات لتصديرها.", ToastType.error⟩], doc := none } ∧
    (projection ≠ [] → ∀ e : String,
      (handleExportPDF isoDate projection (Except.error e)).doc = none ∧
      (handleExportPDF isoDate projection (Except.error e)).toasts.filter
          (fun t => decide (t.type = ToastType.error)) =
        [⟨"حدث خطأ أثناء تحميل الخط أو تصدير PDF.", ToastType.error⟩]) := by
  refine ⟨rfl, ?_⟩
  intro h e
  cases projection with
  | nil => exact absurd rfl h
  | cons o t =>
      constructor
      · simp [handleExportPDF]
      · simp [handleExportPDF, List.filter]

/-- C8 witness at a concrete input: a font failure on a one-order
    projection produces no document. -/
theorem C8_witness :
    (handleExportPDF (fun d => d) [ordA] (Except.error "network")).doc = none :=
  ((C8_pdf_export (fun d => d) [ordA] (Except.ok "font")).2 (by decide) "network").1

end MyOrders


